import Mathlib

/-!
Shallow embedding of the ORE expected-value deployment optimizer
(src/program/src/instruction/ore_deploy.rs, src/program/src/instruction/mod.rs,
src/program/src/state/ore_round.rs) and proofs about it.

Machine-integer conventions used throughout this development:
  * u64 values are modelled as Nat.  Plain Rust arithmetic (the built-in
    operators, which wrap modulo two to the 64 in release builds) is modelled
    with an explicit reduction modulo 2 to the 64 (wrap64); the operators
    written with saturating_add / saturating_sub / saturating_mul in the
    source are modelled by satAdd64 / satSub64 / satMul64.  Note that Nat
    subtraction already truncates at zero, exactly matching u64
    saturating_sub.
  * u64 division by a nonzero divisor agrees with Nat division.  Every
    division in the source has a divisor that is a nonzero constant or is
    guarded nonzero, so Nat division is faithful.
  * i64 values are modelled as Int; the saturating i64 subtraction clamps to
    the i64 extrema, and the i64 division of the source (which truncates
    toward zero) is modelled with Int.tdiv.
-/

/-- 2 to the 64, the modulus of u64 arithmetic. -/
def U64_MOD : Nat := 18446744073709551616

/-- Largest u64 value. -/
def U64_MAX : Nat := 18446744073709551615

/-- Smallest i64 value, the value returned by calculate_ev on degenerate input. -/
def I64_MIN : Int := -9223372036854775808

/-- Largest i64 value. -/
def I64_MAX : Int := 9223372036854775807

/-- Wrapping u64 arithmetic: reduce modulo 2 to the 64. -/
def wrap64 (n : Nat) : Nat := n % U64_MOD

/-- u64 saturating_add. -/
def satAdd64 (a b : Nat) : Nat := min (a + b) U64_MAX

/-- u64 saturating_sub (on Nat this is ordinary truncated subtraction). -/
def satSub64 (a b : Nat) : Nat := a - b

/-- u64 saturating_mul. -/
def satMul64 (a b : Nat) : Nat := min (a * b) U64_MAX

/-- Cast of a u64 value (a Nat below 2 to the 64) to i64, as the Rust `as`
cast does: values at or above 2 to the 63 become negative. -/
def i64OfU64 (n : Nat) : Int := if n < 9223372036854775808 then (n : Int) else (n : Int) - 18446744073709551616

/-- i64 saturating_sub: clamp the exact difference into the i64 range. -/
def i64SatSub (a b : Int) : Int := max I64_MIN (min I64_MAX (a - b))

/-- Inner loop of isqrt (`for _ in 0..6`): state is the pair (x, y); if
`y >= x` return x, otherwise x becomes y and y becomes `(x + n / x) >> 1`. -/
def isqrtGo (n : Nat) : Nat → Nat → Nat → Nat
  | 0, x, _ => x
  | fuel + 1, x, y => if x ≤ y then x else isqrtGo n fuel y ((y + n / y) >>> 1)

/-- Integer square root from the source (Newton method with the starting
point `n >> 1` and at most 6 loop iterations). -/
def isqrt (n : Nat) : Nat :=
  if n = 0 then 0
  else if n ≤ 3 then 1
  else
    let x := n >>> 1
    let y := (x + n / x) >>> 1
    isqrtGo n 6 x y

/-- calculate_ev from the source: expected value of deploying
`deploy_amount` into a block currently holding `block_size`, with the round
total `total_pool` and the ORE-derived pot bonus `ore_value`. -/
def calculate_ev (block_size deploy_amount total_pool ore_value : Nat) : Int :=
  if deploy_amount = 0 ∨ block_size = 0 then I64_MIN
  else
    let total_block := satAdd64 block_size deploy_amount
    if total_block = 0 then I64_MIN
    else
      let share_bps := wrap64 (deploy_amount * 10000) / total_block
      let losing_pool := satSub64 total_pool block_size
      let winnings := wrap64 (losing_pool * 9000) / 10000
      let pot := satAdd64 winnings ore_value
      let expected_win := wrap64 (pot * share_bps) / (25 * 10000)
      let expected_loss := wrap64 (deploy_amount * 24) / 25
      let admin_fee := wrap64 (deploy_amount * 101) / 10000
      i64SatSub (i64SatSub (i64OfU64 expected_win) (i64OfU64 expected_loss)) (i64OfU64 admin_fee)

/-- The fixed-point scale constant C of the Kelly formula (24.2525 times 1e9). -/
def C_SCALED : Nat := 24252500000

/-- One refinement step of the Kelly iteration: recompute the pot value with
the losing pool shrunk by the previous iterate, then re-derive the iterate. -/
def kellyRefine (losing_pool ore_value block_size y_star : Nat) : Nat :=
  let adjusted_pool := satSub64 losing_pool y_star
  let adjusted_winnings := wrap64 (adjusted_pool * 9000) / 10000
  let new_v := satAdd64 adjusted_winnings ore_value
  satSub64 (isqrt (satMul64 (satMul64 new_v block_size) 1000000000 / C_SCALED)) block_size

/-- The refinement loop of calculate_kelly_optimal (`for _ in 0..5`),
embedded with explicit fuel.  Mirrors the source: break when the iterate is
zero; return 0 when the recomputed pot is zero; break (keeping the new
iterate) when the change is below 100. -/
def kellyLoop (losing_pool ore_value block_size : Nat) : Nat → Nat → Nat
  | 0, y => y
  | fuel + 1, y =>
    if y = 0 then y
    else
      let adjusted_pool := satSub64 losing_pool y
      let adjusted_winnings := wrap64 (adjusted_pool * 9000) / 10000
      let new_v := satAdd64 adjusted_winnings ore_value
      if new_v = 0 then 0
      else
        let y1 := satSub64 (isqrt (satMul64 (satMul64 new_v block_size) 1000000000 / C_SCALED)) block_size
        let diff := if y < y1 then y1 - y else y - y1
        if diff < 100 then y1
        else kellyLoop losing_pool ore_value block_size fuel y1

/-- The closed-form initial estimate of calculate_kelly_optimal,
`y* = sqrt(V * O / C) - O`, including the computation of the pot value V. -/
def kellyInit (block_size total_pool ore_value : Nat) : Nat :=
  let losing_pool := satSub64 total_pool block_size
  let winnings := wrap64 (losing_pool * 9000) / 10000
  let v := satAdd64 winnings ore_value
  let product := satMul64 v block_size
  let scaled := satMul64 product 1000000000 / C_SCALED
  satSub64 (isqrt scaled) block_size

/-- calculate_kelly_optimal from the source. -/
def calculate_kelly_optimal (block_size total_pool ore_value : Nat) : Nat :=
  if block_size = 0 ∨ total_pool ≤ block_size then 0
  else
    let losing_pool := satSub64 total_pool block_size
    let winnings := wrap64 (losing_pool * 9000) / 10000
    let v := satAdd64 winnings ore_value
    if v = 0 then 0
    else
      let product := satMul64 v block_size
      let scaled := satMul64 product 1000000000 / C_SCALED
      let y_star := satSub64 (isqrt scaled) block_size
      kellyLoop losing_pool ore_value block_size 5 y_star

/-- The OreRound account record (src/program/src/state/ore_round.rs).  Byte
arrays are lists of byte values; u64 fields are Nat. -/
structure OreRound where
  disc : List Nat
  id : Nat
  deployed : List Nat
  slot_hash : List Nat
  count : List Nat
  expires_at : Nat
  motherlode : Nat
  rent_payer : List Nat
  top_miner : List Nat
  top_miner_reward : Nat
  total_deployed : Nat
  total_vaulted : Nat
  total_winnings : Nat

/-- The fixed 24-byte instruction record OreDeployIxData.  The i16 threshold
is an Int; the padding bytes are carried but ignored. -/
structure OreDeployIxData where
  total_amount : Nat
  ore_price_lamports : Nat
  min_ev_threshold_bps : Int
  num_blocks : Nat
  padding : List Nat

/-- ORE value used for the pot bonus: price after the 10 percent refining
fee plus the motherlode expected value `(motherlode / 625) * 0.9`. -/
def oreValueOf (motherlode price : Nat) : Nat :=
  wrap64 (wrap64 (price * 9) / 10 + wrap64 (motherlode * 9) / 6250)

/-- The initial block table: pairs (original index, committed amount) for
the 25 blocks, in index order. -/
def blocksInit (round : OreRound) : List (Nat × Nat) :=
  (List.range 25).map (fun i => (i, round.deployed.getD i 0))

/-- One inner bubble-sort pass (`for j in 0..bound`): compare-and-swap each
adjacent pair, from the left, for `bound` positions. -/
def bubblePass : Nat → List (Nat × Nat) → List (Nat × Nat)
  | 0, l => l
  | _ + 1, [] => []
  | _ + 1, [a] => [a]
  | bound + 1, a :: b :: t =>
    if b.2 < a.2 then b :: bubblePass bound (a :: t) else a :: bubblePass bound (b :: t)

/-- The outer bubble-sort loop (`for i in 0..24`): pass bounds 24, 23, ..., 1. -/
def bubbleGo : Nat → List (Nat × Nat) → List (Nat × Nat)
  | 0, l => l
  | k + 1, l => bubbleGo k (bubblePass (k + 1) l)

/-- Ascending bubble sort of the 25-entry block table by committed amount. -/
def sortBlocks (l : List (Nat × Nat)) : List (Nat × Nat) := bubbleGo 24 l

/-- The `max_blocks` smallest blocks, in ascending committed-size order. -/
def candidatesOf (round : OreRound) (max_blocks : Nat) : List (Nat × Nat) :=
  (sortBlocks (blocksInit round)).take max_blocks

/-- Step 1 of calculate_optimal_deployments: each candidate paired with its
Kelly-optimal deployment. -/
def withOptimalOf (round : OreRound) (max_blocks ore_value : Nat) : List ((Nat × Nat) × Nat) :=
  (candidatesOf round max_blocks).map
    (fun c => (c, calculate_kelly_optimal c.2 round.total_deployed ore_value))

/-- The saturating running total of the unconstrained optimal amounts. -/
def totalOptimalOf (round : OreRound) (max_blocks ore_value : Nat) : Nat :=
  ((withOptimalOf round max_blocks ore_value).map (fun c => c.2)).foldl satAdd64 0

/-- Step 2 of calculate_optimal_deployments: the fixed-point (1e9 scale)
budget scale factor. -/
def scaleFactorOf (total_budget total_optimal : Nat) : Nat :=
  if total_budget < total_optimal ∧ 0 < total_optimal then
    wrap64 (total_budget * 1000000000) / total_optimal
  else 1000000000

/-- Step 3 of calculate_optimal_deployments: walk the candidates in
ascending committed-size order; skip a candidate whose optimal or scaled
amount is zero; include a candidate whose EV meets the threshold; stop at
the first candidate that fails the threshold test.  Produces the selected
(block index, scaled amount, expected value) triples in selection order. -/
def selectLoop (total_pool ore_value scale : Nat) (thresh : Int) :
    List ((Nat × Nat) × Nat) → List (Nat × Nat × Int)
  | [] => []
  | ((block_idx, block_sz), opt) :: rest =>
    if opt = 0 then selectLoop total_pool ore_value scale thresh rest
    else
      let scaled := wrap64 (opt * scale) / 1000000000
      if scaled = 0 then selectLoop total_pool ore_value scale thresh rest
      else
        let ev := calculate_ev block_sz scaled total_pool ore_value
        let min_ev := Int.tdiv ((scaled : Int) * thresh) 10000
        if min_ev ≤ ev then
          (block_idx, scaled, ev) :: selectLoop total_pool ore_value scale thresh rest
        else []

/-- calculate_optimal_deployments from the source.  The returned list holds
the (block index, amount, expected value) triples for the selected blocks;
its length is the `count` of the source (the source also returns the three
fixed arrays padded with zeros, which carry the same information). -/
def calculate_optimal_deployments (round : OreRound) (total_budget max_blocks ore_price : Nat)
    (min_ev_threshold_bps : Int) : List (Nat × Nat × Int) :=
  let ore_value := oreValueOf round.motherlode ore_price
  selectLoop round.total_deployed ore_value
    (scaleFactorOf total_budget (totalOptimalOf round max_blocks ore_value))
    min_ev_threshold_bps
    (withOptimalOf round max_blocks ore_value)

/-- The error outcomes of process_ore_deploy that this development models:
ProgramError InvalidInstructionData from validation, and the program error
NoPositiveEvBlocks when no block meets the EV threshold. -/
inductive DeployError where
  | invalidInstructionData : DeployError
  | noPositiveEvBlocks : DeployError
deriving DecidableEq

/-- process_ore_deploy from the source, modelled at the optimizer boundary:
account plumbing, logging and the external CPI transport are out of scope;
the ok result carries the list of (amount, block mask) commit-deployment
calls issued, in order.  Error returns issue no calls. -/
def process_ore_deploy (round : OreRound) (ix : OreDeployIxData) :
    Except DeployError (List (Nat × Nat)) :=
  if ix.num_blocks = 0 ∨ 5 < ix.num_blocks then Except.error DeployError.invalidInstructionData
  else if ix.ore_price_lamports = 0 then Except.error DeployError.invalidInstructionData
  else
    let plan := calculate_optimal_deployments round ix.total_amount ix.num_blocks
      ix.ore_price_lamports ix.min_ev_threshold_bps
    if plan.length = 0 then Except.error DeployError.noPositiveEvBlocks
    else Except.ok (plan.map (fun t => (t.2.1, (2 ^ t.1) % 4294967296)))

/-- The commit-deployment calls issued by a process_ore_deploy outcome:
none on an error, the plan calls on success. -/
def deployCallsOf (r : Except DeployError (List (Nat × Nat))) : List (Nat × Nat) :=
  match r with
  | Except.ok calls => calls
  | Except.error _ => []

/-- The declared outgoing instruction discriminator
(ORE_DEPLOY_IX_DISCRIMINATOR in the source). -/
def ORE_DEPLOY_IX_DISCRIMINATOR : Nat := 6

/-- The 13-byte data of the outgoing commit-deployment instruction built by
execute_deploy: discriminator byte, then the amount as 8 little-endian
bytes, then the mask as 4 little-endian bytes. -/
def executeDeployData (sol_amount squares : Nat) : List Nat :=
  [ORE_DEPLOY_IX_DISCRIMINATOR] ++
    (List.range 8).map (fun i => sol_amount / 256 ^ i % 256) ++
    (List.range 4).map (fun i => squares / 256 ^ i % 256)

/-- The incoming instruction kinds (src/program/src/instruction/mod.rs). -/
inductive MyProgramInstruction where
  | oreDeploy : MyProgramInstruction
deriving DecidableEq

/-- The TryFrom conversion of the incoming tag byte: byte 1 decodes to
OreDeploy, every other byte is InvalidInstructionData. -/
def myProgramInstructionTryFrom (value : Nat) : Except DeployError MyProgramInstruction :=
  if value = 1 then Except.ok MyProgramInstruction.oreDeploy
  else Except.error DeployError.invalidInstructionData

/-- Clamp an exact nonnegative term into the i64 range. -/
def clampI64 (n : Nat) : Int := min (n : Int) I64_MAX

/-- Modelled from the spec: the reference definition of the expected value
(spec section 4.5 and claim C4), computed with exact unbounded integers:
the minimum representable value on degenerate input; otherwise
`share = deploy_amount * 10000 / (block_size + deploy_amount)` basis points,
`pot = 0.9 * (total_pool - block_size) + ore_value` (the subtraction
truncating at zero), `expected_win = pot * share / (25 * 10000)`,
`expected_loss = deploy_amount * 24 / 25`,
`admin_fee = deploy_amount * 101 / 10000`, and the result is
`expected_win - expected_loss - admin_fee` with each term saturating (here:
clamped into i64) before the saturating combination. -/
def calculate_ev_spec (block_size deploy_amount total_pool ore_value : Nat) : Int :=
  if deploy_amount = 0 ∨ block_size = 0 then I64_MIN
  else
    let share := deploy_amount * 10000 / (block_size + deploy_amount)
    let pot := (total_pool - block_size) * 9 / 10 + ore_value
    let expected_win := pot * share / (25 * 10000)
    let expected_loss := deploy_amount * 24 / 25
    let admin_fee := deploy_amount * 101 / 10000
    i64SatSub (i64SatSub (clampI64 expected_win) (clampI64 expected_loss)) (clampI64 admin_fee)

/-- The plain (non-saturating) u64 operations of calculate_ev, with the
condition that each stays below 2 to the 64, i.e. that none of them
overflows: the share product, the winnings product, the expected-win
product, the expected-loss product and the admin-fee product. -/
def calculate_ev_no_overflow (block_size deploy_amount total_pool ore_value : Nat) : Prop :=
  deploy_amount * 10000 < U64_MOD ∧
  (total_pool - block_size) * 9000 < U64_MOD ∧
  satAdd64 ((total_pool - block_size) * 9000 / 10000) ore_value *
    (wrap64 (deploy_amount * 10000) / satAdd64 block_size deploy_amount) < U64_MOD ∧
  deploy_amount * 24 < U64_MOD ∧
  deploy_amount * 101 < U64_MOD

instance (block_size deploy_amount total_pool ore_value : Nat) :
    Decidable (calculate_ev_no_overflow block_size deploy_amount total_pool ore_value) := by
  unfold calculate_ev_no_overflow
  infer_instance

/-- One step of the abstract Kelly iterate sequence: the loop freezes at a
zero iterate (it breaks and returns 0), otherwise it applies the refinement
step. -/
def kellyStep1 (losing_pool ore_value block_size y : Nat) : Nat :=
  if y = 0 then 0 else kellyRefine losing_pool ore_value block_size y

/-- The abstract sequence of Kelly iterates: element k is the initial
estimate refined k times (freezing at zero). -/
def kellySeq (losing_pool ore_value block_size y0 : Nat) : Nat → Nat
  | 0 => y0
  | k + 1 => kellyStep1 losing_pool ore_value block_size (kellySeq losing_pool ore_value block_size y0 k)

/-- A round with nothing deployed, used as a concrete witness input. -/
def zeroRound : OreRound where
  disc := List.replicate 8 0
  id := 1
  deployed := List.replicate 25 0
  slot_hash := List.replicate 32 0
  count := List.replicate 25 0
  expires_at := 0
  motherlode := 0
  rent_payer := List.replicate 32 0
  top_miner := List.replicate 32 0
  top_miner_reward := 0
  total_deployed := 0
  total_vaulted := 0
  total_winnings := 0

/-- A round with strictly increasing committed amounts, used as a concrete
witness input. -/
def rampRound : OreRound where
  disc := List.replicate 8 0
  id := 2
  deployed := (List.range 25).map (fun i => 1000000000 * (i + 1))
  slot_hash := List.replicate 32 0
  count := List.replicate 25 0
  expires_at := 0
  motherlode := 0
  rent_payer := List.replicate 32 0
  top_miner := List.replicate 32 0
  top_miner_reward := 0
  total_deployed := 325000000000
  total_vaulted := 0
  total_winnings := 0

/-- A round with small strictly increasing committed amounts (1000, 2000,
..., 25000), used as a concrete witness input where the Kelly sizer
produces nonzero amounts. -/
def smallRound : OreRound where
  disc := List.replicate 8 0
  id := 3
  deployed := (List.range 25).map (fun i => 1000 * (i + 1))
  slot_hash := List.replicate 32 0
  count := List.replicate 25 0
  expires_at := 0
  motherlode := 0
  rent_payer := List.replicate 32 0
  top_miner := List.replicate 32 0
  top_miner_reward := 0
  total_deployed := 325000
  total_vaulted := 0
  total_winnings := 0

theorem U64_MOD_eq : U64_MOD = 18446744073709551616 := rfl

theorem U64_MAX_eq : U64_MAX = 18446744073709551615 := rfl

theorem wrap64_le (a : Nat) : wrap64 a ≤ a := Nat.mod_le _ _

theorem wrap64_lt (a : Nat) : wrap64 a < U64_MOD :=
  Nat.mod_lt _ (by norm_num [U64_MOD])

theorem wrap64_eq {a : Nat} (h : a < U64_MOD) : wrap64 a = a := Nat.mod_eq_of_lt h

theorem satAdd64_le_add (a b : Nat) : satAdd64 a b ≤ a + b := min_le_left _ _

theorem satAdd64_le_max (a b : Nat) : satAdd64 a b ≤ U64_MAX := min_le_right _ _

theorem satAdd64_eq {a b : Nat} (h : a + b ≤ U64_MAX) : satAdd64 a b = a + b := min_eq_left h

theorem satSub64_le (a b : Nat) : satSub64 a b ≤ a := Nat.sub_le _ _

theorem satMul64_le_max (a b : Nat) : satMul64 a b ≤ U64_MAX := min_le_right _ _

theorem mul_div_le_of_base_le {a b : Nat} (c : Nat) (h : a ≤ b) : a * c / b ≤ c := by
  rcases Nat.eq_zero_or_pos b with hb | hb
  · subst hb
    interval_cases a
    simp
  · calc a * c / b ≤ b * c / b := Nat.div_le_div_right (Nat.mul_le_mul_right c h)
    _ = c := Nat.mul_div_cancel_left c hb

theorem mul9000_div10000_le (x : Nat) : x * 9000 / 10000 ≤ x := by
  calc x * 9000 / 10000 ≤ x * 10000 / 10000 :=
        Nat.div_le_div_right (Nat.mul_le_mul_left x (by norm_num))
  _ = x := Nat.mul_div_cancel x (by norm_num)

theorem mul9000_div10000_eq (x : Nat) : x * 9000 / 10000 = x * 9 / 10 := by
  have h1 : x * 9000 = x * 9 * 1000 := by ring
  have h2 : (10000 : Nat) = 10 * 1000 := by norm_num
  rw [h1, h2, Nat.mul_div_mul_right _ _ (by norm_num)]

theorem mul_div_le_left {p s c : Nat} (h : s ≤ c) : p * s / c ≤ p := by
  rcases Nat.eq_zero_or_pos c with hc | hc
  · subst hc
    simp
  · calc p * s / c ≤ p * c / c := Nat.div_le_div_right (Nat.mul_le_mul_left p h)
    _ = p := Nat.mul_div_cancel p hc

theorem mul9_div10_le (x : Nat) : x * 9 / 10 ≤ x := mul_div_le_left (by norm_num)

theorem i64OfU64_eq {n : Nat} (h : n < 9223372036854775808) : i64OfU64 n = (n : Int) :=
  if_pos h

theorem i64SatSub_eq {a b : Int} (h1 : I64_MIN ≤ a - b) (h2 : a - b ≤ I64_MAX) :
    i64SatSub a b = a - b := by
  unfold i64SatSub
  rw [min_eq_right h2, max_eq_right h1]

theorem clampI64_eq {n : Nat} (h : (n : Int) ≤ I64_MAX) : clampI64 n = (n : Int) :=
  min_eq_left h

/-- Claim C7: calculate_kelly_optimal returns 0 whenever the block is empty
or the total committed pool does not exceed the block (degenerate pool). -/
theorem c7_kelly_degenerate (block_size total_pool ore_value : Nat)
    (h : block_size = 0 ∨ total_pool ≤ block_size) :
    calculate_kelly_optimal block_size total_pool ore_value = 0 := by
  unfold calculate_kelly_optimal
  rw [if_pos h]

/-- Witness for C7 at concrete degenerate inputs: an empty block, and a
total pool not exceeding the block. -/
theorem c7_kelly_degenerate_witness :
    calculate_kelly_optimal 0 5 7 = 0 ∧ calculate_kelly_optimal 3 2 9 = 0 :=
  ⟨c7_kelly_degenerate 0 5 7 (Or.inl rfl), c7_kelly_degenerate 3 2 9 (Or.inr (by decide))⟩

/-- Claim C10: the incoming tag decoder accepts exactly the byte 1 as
OreDeploy and rejects every other byte with InvalidInstructionData — in
particular the byte 6, even though the declared discriminator constant,
which execute_deploy writes as the leading byte of the outgoing
commit-deployment instruction data, is 6. -/
theorem c10_instruction_tag :
    myProgramInstructionTryFrom 1 = Except.ok MyProgramInstruction.oreDeploy ∧
    (∀ value, value ≠ 1 →
      myProgramInstructionTryFrom value = Except.error DeployError.invalidInstructionData) ∧
    ORE_DEPLOY_IX_DISCRIMINATOR = 6 ∧
    myProgramInstructionTryFrom ORE_DEPLOY_IX_DISCRIMINATOR =
      Except.error DeployError.invalidInstructionData ∧
    (∀ sol_amount squares,
      (executeDeployData sol_amount squares).head? = some ORE_DEPLOY_IX_DISCRIMINATOR) := by
  refine ⟨rfl, ?_, rfl, rfl, ?_⟩
  · intro value h
    unfold myProgramInstructionTryFrom
    rw [if_neg h]
  · intro sol_amount squares
    rfl

/-- Witness for C10: the declared discriminator byte 6 itself is rejected
by the incoming decoder. -/
theorem c10_instruction_tag_witness :
    myProgramInstructionTryFrom 6 = Except.error DeployError.invalidInstructionData :=
  c10_instruction_tag.2.1 6 (by decide)

/-- Claim C2 (code bug): at n = 1000000 the source isqrt returns 7854, whose
square exceeds n, so isqrt is not the floor square root there (the floor
square root of 1000000 is 1000); the 6-iteration Newton loop starting from
n / 2 cannot descend far enough for inputs of this size. -/
theorem c2_isqrt_not_floor :
    isqrt 1000000 = 7854 ∧ ¬ (isqrt 1000000 * isqrt 1000000 ≤ 1000000) := by
  decide

/-- Claim C3, counterexample: not every arithmetic operation of
calculate_ev saturates — at deploy_amount = 2 to the 60 the plain share,
expected-loss and admin-fee products exceed the u64 range (they wrap,
changing the result), refuting the claim that no input can overflow. -/
theorem c3_counterexample :
    ¬ calculate_ev_no_overflow 1 1152921504606846976 0 0 := by
  decide

/-- Claim C4, counterexample: at block_size = 1, deploy_amount = 2 to the
60, total_pool = 0, ore_value = 0 the source calculate_ev (whose plain
products wrap modulo 2 to the 64) differs from the exact reference
definition of the spec. -/
theorem c4_counterexample :
    calculate_ev 1 1152921504606846976 0 0 ≠ calculate_ev_spec 1 1152921504606846976 0 0 := by
  decide

/-- Claim C3, amended: the operations written with saturating arithmetic do
clamp, but the optimizer also uses plain u64 products which wrap modulo
2 to the 64 on extreme inputs (see the counterexample), so the
no-overflow guarantee is not universal; it does hold on bounded inputs:
when every argument of calculate_ev is below 2 to the 49, none of its plain
products overflows. -/
theorem c3_amended_bounded_no_overflow (block_size deploy_amount total_pool ore_value : Nat)
    (hbs : block_size < 562949953421312) (hda : deploy_amount < 562949953421312)
    (htp : total_pool < 562949953421312) (hov : ore_value < 562949953421312) :
    calculate_ev_no_overflow block_size deploy_amount total_pool ore_value := by
  have hmod : U64_MOD = 18446744073709551616 := rfl
  have hmax : U64_MAX = 18446744073709551615 := rfl
  refine ⟨?_, ?_, ?_, ?_, ?_⟩
  · have h1 : deploy_amount * 10000 ≤ 562949953421311 * 10000 :=
      Nat.mul_le_mul (by omega) (le_refl _)
    omega
  · have h1 : (total_pool - block_size) * 9000 ≤ 562949953421311 * 9000 :=
      Nat.mul_le_mul (by omega) (le_refl _)
    omega
  · have hbsda : satAdd64 block_size deploy_amount = block_size + deploy_amount :=
      satAdd64_eq (by omega)
    rw [hbsda]
    have hw : (total_pool - block_size) * 9000 / 10000 ≤ total_pool - block_size :=
      mul9000_div10000_le _
    have hpot : satAdd64 ((total_pool - block_size) * 9000 / 10000) ore_value ≤
        1125899906842624 := by
      have := satAdd64_le_add ((total_pool - block_size) * 9000 / 10000) ore_value
      omega
    have hshare : wrap64 (deploy_amount * 10000) / (block_size + deploy_amount) ≤ 10000 := by
      calc wrap64 (deploy_amount * 10000) / (block_size + deploy_amount)
          ≤ deploy_amount * 10000 / (block_size + deploy_amount) :=
            Nat.div_le_div_right (wrap64_le _)
      _ ≤ 10000 := mul_div_le_of_base_le 10000 (by omega)
    have := Nat.mul_le_mul hpot hshare
    omega
  · have h1 : deploy_amount * 24 ≤ 562949953421311 * 24 :=
      Nat.mul_le_mul (by omega) (le_refl _)
    omega
  · have h1 : deploy_amount * 101 ≤ 562949953421311 * 101 :=
      Nat.mul_le_mul (by omega) (le_refl _)
    omega

/-- Witness for the amended C3 at concrete bounded inputs. -/
theorem c3_amended_witness : calculate_ev_no_overflow 100 1000 1000000 50000 :=
  c3_amended_bounded_no_overflow 100 1000 1000000 50000 (by norm_num) (by norm_num)
    (by norm_num) (by norm_num)

/-- Claim C4, amended: the reference equality holds for bounded inputs:
when every argument is below 2 to the 49, no intermediate product wraps and
calculate_ev coincides with the exact reference definition of the spec. -/
theorem c4_amended_bounded_eq (block_size deploy_amount total_pool ore_value : Nat)
    (hbs : block_size < 562949953421312) (hda : deploy_amount < 562949953421312)
    (htp : total_pool < 562949953421312) (hov : ore_value < 562949953421312) :
    calculate_ev block_size deploy_amount total_pool ore_value =
      calculate_ev_spec block_size deploy_amount total_pool ore_value := by
  have hmod : U64_MOD = 18446744073709551616 := rfl
  have hmax : U64_MAX = 18446744073709551615 := rfl
  have hImax : I64_MAX = 9223372036854775807 := rfl
  by_cases hdeg : deploy_amount = 0 ∨ block_size = 0
  · unfold calculate_ev calculate_ev_spec
    rw [if_pos hdeg, if_pos hdeg]
  · have hda0 : deploy_amount ≠ 0 := fun h => hdeg (Or.inl h)
    simp only [calculate_ev, calculate_ev_spec, satSub64]
    rw [if_neg hdeg, if_neg hdeg]
    have e0 : satAdd64 block_size deploy_amount = block_size + deploy_amount :=
      satAdd64_eq (by omega)
    rw [e0, if_neg (show ¬ block_size + deploy_amount = 0 by omega)]
    have e1 : wrap64 (deploy_amount * 10000) = deploy_amount * 10000 := by
      apply wrap64_eq
      have : deploy_amount * 10000 ≤ 562949953421311 * 10000 :=
        Nat.mul_le_mul (by omega) (le_refl _)
      omega
    rw [e1]
    have e2 : wrap64 ((total_pool - block_size) * 9000) = (total_pool - block_size) * 9000 := by
      apply wrap64_eq
      have : (total_pool - block_size) * 9000 ≤ 562949953421311 * 9000 :=
        Nat.mul_le_mul (by omega) (le_refl _)
      omega
    rw [e2, mul9000_div10000_eq]
    have hw : (total_pool - block_size) * 9 / 10 ≤ total_pool - block_size := mul9_div10_le _
    have e3 : satAdd64 ((total_pool - block_size) * 9 / 10) ore_value =
        (total_pool - block_size) * 9 / 10 + ore_value := satAdd64_eq (by omega)
    rw [e3]
    have hshare : deploy_amount * 10000 / (block_size + deploy_amount) ≤ 10000 :=
      mul_div_le_of_base_le 10000 (by omega)
    have hpot : (total_pool - block_size) * 9 / 10 + ore_value ≤ 1125899906842624 := by omega
    have e4 : wrap64 (((total_pool - block_size) * 9 / 10 + ore_value) *
        (deploy_amount * 10000 / (block_size + deploy_amount))) =
        ((total_pool - block_size) * 9 / 10 + ore_value) *
          (deploy_amount * 10000 / (block_size + deploy_amount)) := by
      apply wrap64_eq
      have := Nat.mul_le_mul hpot hshare
      omega
    rw [e4]
    have e5 : wrap64 (deploy_amount * 24) = deploy_amount * 24 := by
      apply wrap64_eq
      have : deploy_amount * 24 ≤ 562949953421311 * 24 := Nat.mul_le_mul (by omega) (le_refl _)
      omega
    rw [e5]
    have e6 : wrap64 (deploy_amount * 101) = deploy_amount * 101 := by
      apply wrap64_eq
      have : deploy_amount * 101 ≤ 562949953421311 * 101 := Nat.mul_le_mul (by omega) (le_refl _)
      omega
    rw [e6]
    have hwin : ((total_pool - block_size) * 9 / 10 + ore_value) *
        (deploy_amount * 10000 / (block_size + deploy_amount)) / (25 * 10000) ≤
        1125899906842624 := by
      have := mul_div_le_left (p := (total_pool - block_size) * 9 / 10 + ore_value)
        (c := 25 * 10000) (le_trans hshare (by norm_num))
      omega
    have hloss : deploy_amount * 24 / 25 ≤ deploy_amount := mul_div_le_left (by norm_num)
    have hfee : deploy_amount * 101 / 10000 ≤ deploy_amount := mul_div_le_left (by norm_num)
    rw [i64OfU64_eq (by omega), i64OfU64_eq (by omega), i64OfU64_eq (by omega),
      clampI64_eq (by omega), clampI64_eq (by omega), clampI64_eq (by omega)]

/-- Witness for the amended C4 at concrete bounded inputs. -/
theorem c4_amended_witness :
    calculate_ev 100 1000 1000000 50000 = calculate_ev_spec 100 1000 1000000 50000 :=
  c4_amended_bounded_eq 100 1000 1000000 50000 (by norm_num) (by norm_num) (by norm_num)
    (by norm_num)

theorem bubblePass_singleton (n : Nat) (a : Nat × Nat) : bubblePass n [a] = [a] := by
  cases n <;> rfl

theorem bubblePass_perm (n : Nat) : ∀ l, List.Perm (bubblePass n l) l := by
  induction n with
  | zero => intro l; rfl
  | succ n ih =>
    intro l
    match l with
    | [] => rfl
    | [a] => rfl
    | a :: b :: t =>
      simp only [bubblePass]
      split
      · exact ((ih (a :: t)).cons b).trans (List.Perm.swap a b t)
      · exact (ih (b :: t)).cons a

theorem bubbleGo_perm (k : Nat) : ∀ l, List.Perm (bubbleGo k l) l := by
  induction k with
  | zero => intro l; rfl
  | succ k ih =>
    intro l
    exact (ih (bubblePass (k + 1) l)).trans (bubblePass_perm (k + 1) l)

theorem bubblePass_pairwise_stable (n : Nat) :
    ∀ l : List (Nat × Nat), List.Pairwise (fun a b => a.2 = b.2 → a.1 < b.1) l →
      List.Pairwise (fun a b => a.2 = b.2 → a.1 < b.1) (bubblePass n l) := by
  induction n with
  | zero => intro l h; exact h
  | succ n ih =>
    intro l h
    match l with
    | [] => exact h
    | [a] => exact h
    | a :: b :: t =>
      rw [List.pairwise_cons] at h
      obtain ⟨ha, h2⟩ := h
      rw [List.pairwise_cons] at h2
      obtain ⟨hb, ht⟩ := h2
      simp only [bubblePass]
      split
      · rename_i hswap
        rw [List.pairwise_cons]
        refine ⟨?_, ih (a :: t) ?_⟩
        · intro x hx
          rw [(bubblePass_perm n (a :: t)).mem_iff] at hx
          rcases List.mem_cons.mp hx with hxa | hxt
          · subst hxa
            intro heq
            omega
          · exact hb x hxt
        · rw [List.pairwise_cons]
          exact ⟨fun x hx => ha x (List.mem_cons_of_mem b hx), ht⟩
      · rw [List.pairwise_cons]
        refine ⟨?_, ih (b :: t) (List.pairwise_cons.mpr ⟨hb, ht⟩)⟩
        intro x hx
        rw [(bubblePass_perm n (b :: t)).mem_iff] at hx
        exact ha x hx

theorem bubbleGo_pairwise_stable (k : Nat) :
    ∀ l : List (Nat × Nat), List.Pairwise (fun a b => a.2 = b.2 → a.1 < b.1) l →
      List.Pairwise (fun a b => a.2 = b.2 → a.1 < b.1) (bubbleGo k l) := by
  induction k with
  | zero => intro l h; exact h
  | succ k ih =>
    intro l h
    exact ih (bubblePass (k + 1) l) (bubblePass_pairwise_stable (k + 1) l h)

theorem bubblePass_max :
    ∀ (l : List (Nat × Nat)) (n : Nat) (a : Nat × Nat), l.length ≤ n →
      ∃ t m, bubblePass n (a :: l) = t ++ [m] ∧ ∀ x ∈ a :: l, x.2 ≤ m.2 := by
  intro l
  induction l with
  | nil =>
    intro n a _
    exact ⟨[], a, bubblePass_singleton n a, by simp⟩
  | cons b t ih =>
    intro n a hlen
    match n with
    | 0 => simp at hlen
    | n + 1 =>
      simp only [bubblePass]
      split
      · rename_i hswap
        obtain ⟨t1, m, heq, hmax⟩ := ih n a (by simpa using hlen)
        refine ⟨b :: t1, m, by rw [heq]; rfl, ?_⟩
        intro x hx
        rcases List.mem_cons.mp hx with hxa | hx2
        · subst hxa
          exact hmax x (List.mem_cons_self x t)
        · rcases List.mem_cons.mp hx2 with hxb | hxt
          · subst hxb
            exact le_trans (le_of_lt hswap) (hmax a (List.mem_cons_self a t))
          · exact hmax x (List.mem_cons_of_mem a hxt)
      · rename_i hns
        obtain ⟨t1, m, heq, hmax⟩ := ih n b (by simpa using hlen)
        refine ⟨a :: t1, m, by rw [heq]; rfl, ?_⟩
        intro x hx
        rcases List.mem_cons.mp hx with hxa | hx2
        · subst hxa
          exact le_trans (le_of_not_lt hns) (hmax b (List.mem_cons_self b t))
        · exact hmax x hx2

theorem bubblePass_append_max (n : Nat) :
    ∀ (t : List (Nat × Nat)) (m : Nat × Nat), (∀ x ∈ t, x.2 ≤ m.2) →
      bubblePass n (t ++ [m]) = bubblePass n t ++ [m] := by
  induction n with
  | zero => intro t m _; rfl
  | succ n ih =>
    intro t m hle
    match t with
    | [] => rfl
    | [a] =>
      show bubblePass (n + 1) [a, m] = bubblePass (n + 1) [a] ++ [m]
      simp only [bubblePass]
      rw [if_neg (not_lt_of_le (hle a (List.mem_singleton_self a))), bubblePass_singleton n m]
      rfl
    | a :: b :: t2 =>
      show bubblePass (n + 1) (a :: b :: (t2 ++ [m])) = bubblePass (n + 1) (a :: b :: t2) ++ [m]
      simp only [bubblePass]
      split
      · refine congrArg (fun z => b :: z) (ih (a :: t2) m ?_)
        intro x hx
        rcases List.mem_cons.mp hx with hxa | hxt
        · rw [hxa]
          exact hle a (List.mem_cons_self a (b :: t2))
        · exact hle x (List.mem_cons_of_mem a (List.mem_cons_of_mem b hxt))
      · refine congrArg (fun z => a :: z) (ih (b :: t2) m ?_)
        intro x hx
        exact hle x (List.mem_cons_of_mem a hx)

theorem bubbleGo_append_max (k : Nat) :
    ∀ (t : List (Nat × Nat)) (m : Nat × Nat), (∀ x ∈ t, x.2 ≤ m.2) →
      bubbleGo k (t ++ [m]) = bubbleGo k t ++ [m] := by
  induction k with
  | zero => intro t m _; rfl
  | succ k ih =>
    intro t m hle
    show bubbleGo k (bubblePass (k + 1) (t ++ [m])) = bubbleGo k (bubblePass (k + 1) t) ++ [m]
    rw [bubblePass_append_max (k + 1) t m hle]
    apply ih
    intro x hx
    exact hle x ((bubblePass_perm (k + 1) t).mem_iff.mp hx)

theorem bubbleGo_sorted (k : Nat) :
    ∀ l : List (Nat × Nat), l.length ≤ k + 1 →
      List.Pairwise (fun a b : Nat × Nat => a.2 ≤ b.2) (bubbleGo k l) := by
  induction k with
  | zero =>
    intro l hlen
    match l with
    | [] => exact List.Pairwise.nil
    | [a] => exact List.pairwise_singleton _ a
    | a :: b :: t => simp at hlen
  | succ k ih =>
    intro l hlen
    match l with
    | [] =>
      show List.Pairwise _ (bubbleGo k (bubblePass (k + 1) []))
      exact ih [] (by simp)
    | a :: l2 =>
      obtain ⟨t, m, heq, hmax⟩ := bubblePass_max l2 (k + 1) a (by simpa using hlen)
      have hmax_t : ∀ x ∈ t, x.2 ≤ m.2 := by
        intro x hx
        have hx2 : x ∈ t ++ [m] := List.mem_append_left [m] hx
        rw [← heq, (bubblePass_perm (k + 1) (a :: l2)).mem_iff] at hx2
        exact hmax x hx2
      have hlength : t.length ≤ k + 1 := by
        have h1 : (bubblePass (k + 1) (a :: l2)).length = t.length + 1 := by
          rw [heq]
          simp
        have h2 : (bubblePass (k + 1) (a :: l2)).length = l2.length + 1 := by
          rw [(bubblePass_perm (k + 1) (a :: l2)).length_eq]
          simp
        have h3 : l2.length + 1 ≤ k + 2 := by
          simpa using hlen
        omega
      show List.Pairwise _ (bubbleGo k (bubblePass (k + 1) (a :: l2)))
      rw [heq, bubbleGo_append_max k t m hmax_t]
      rw [List.pairwise_append]
      refine ⟨ih t hlength, by simp, ?_⟩
      intro x hx y hy
      rw [List.mem_singleton] at hy
      subst hy
      exact hmax_t x ((bubbleGo_perm k t).mem_iff.mp hx)

/-- Claim C8: the ranking stage is a stable ascending sort: the sorted block
table is a permutation of the 25 (original index, committed amount) pairs,
it is pairwise ascending in committed amount, and pairs with equal
committed amount keep their original relative index order. -/
theorem c8_ranking_stable_sort (round : OreRound) :
    List.Perm (sortBlocks (blocksInit round)) (blocksInit round) ∧
    List.Pairwise (fun a b : Nat × Nat => a.2 ≤ b.2) (sortBlocks (blocksInit round)) ∧
    List.Pairwise (fun a b : Nat × Nat => a.2 = b.2 → a.1 < b.1)
      (sortBlocks (blocksInit round)) := by
  refine ⟨bubbleGo_perm 24 _, ?_, ?_⟩
  · apply bubbleGo_sorted
    simp [blocksInit]
  · apply bubbleGo_pairwise_stable
    unfold blocksInit
    rw [List.pairwise_map]
    apply (List.pairwise_lt_range 25).imp
    intro a b h _
    exact h

/-- Claim C9: process_ore_deploy fails with InvalidInstructionData exactly
when num_blocks is outside 1..5 or the price is zero (for every round, so
before any sizing computation); when validation passes but no candidate
survives filtering it fails with the distinct error NoPositiveEvBlocks; and
every failing outcome issues no commit-deployment call. -/
theorem c9_process_errors (round : OreRound) (ix : OreDeployIxData) :
    (process_ore_deploy round ix = Except.error DeployError.invalidInstructionData ↔
      (ix.num_blocks = 0 ∨ 5 < ix.num_blocks ∨ ix.ore_price_lamports = 0)) ∧
    ((ix.num_blocks ≠ 0 ∧ ix.num_blocks ≤ 5 ∧ ix.ore_price_lamports ≠ 0 ∧
        (calculate_optimal_deployments round ix.total_amount ix.num_blocks
          ix.ore_price_lamports ix.min_ev_threshold_bps).length = 0) →
      process_ore_deploy round ix = Except.error DeployError.noPositiveEvBlocks) ∧
    DeployError.invalidInstructionData ≠ DeployError.noPositiveEvBlocks ∧
    (∀ e, process_ore_deploy round ix = Except.error e →
      deployCallsOf (process_ore_deploy round ix) = []) := by
  simp only [process_ore_deploy]
  by_cases h1 : ix.num_blocks = 0 ∨ 5 < ix.num_blocks
  · rw [if_pos h1]
    refine ⟨⟨fun _ => ?_, fun _ => rfl⟩, fun hc => ?_, by decide, fun e _ => rfl⟩
    · rcases h1 with h | h
      · exact Or.inl h
      · exact Or.inr (Or.inl h)
    · rcases h1 with h | h
      · exact absurd h hc.1
      · exact absurd h (by omega)
  · rw [if_neg h1]
    by_cases h2 : ix.ore_price_lamports = 0
    · rw [if_pos h2]
      refine ⟨⟨fun _ => Or.inr (Or.inr h2), fun _ => rfl⟩, fun hc => ?_, by decide,
        fun e _ => rfl⟩
      exact absurd h2 hc.2.2.1
    · rw [if_neg h2]
      by_cases h3 : (calculate_optimal_deployments round ix.total_amount ix.num_blocks
          ix.ore_price_lamports ix.min_ev_threshold_bps).length = 0
      · rw [if_pos h3]
        refine ⟨⟨fun h => absurd h (by simp), fun h => ?_⟩, fun _ => rfl, by decide,
          fun e _ => rfl⟩
        push_neg at h1
        rcases h with h | h | h
        · omega
        · omega
        · exact absurd h h2
      · rw [if_neg h3]
        refine ⟨⟨fun h => absurd h (by simp), fun h => ?_⟩, fun hc => absurd hc.2.2.2 h3,
          by decide, fun e h => absurd h (by simp)⟩
        push_neg at h1
        rcases h with h | h | h
        · omega
        · omega
        · exact absurd h h2

/-- Witness for C9: with nothing deployed, a request with num_blocks 0 is
rejected as InvalidInstructionData, and a well-formed request finds no
viable allocation and is rejected as NoPositiveEvBlocks. -/
theorem c9_process_errors_witness :
    process_ore_deploy zeroRound
        { total_amount := 1000000000, ore_price_lamports := 1000000000,
          min_ev_threshold_bps := 0, num_blocks := 0, padding := [0, 0, 0, 0, 0] } =
      Except.error DeployError.invalidInstructionData ∧
    process_ore_deploy zeroRound
        { total_amount := 1000000000, ore_price_lamports := 1000000000,
          min_ev_threshold_bps := 0, num_blocks := 1, padding := [0, 0, 0, 0, 0] } =
      Except.error DeployError.noPositiveEvBlocks :=
  ⟨(c9_process_errors zeroRound _).1.mpr (Or.inl rfl),
    (c9_process_errors zeroRound _).2.1 ⟨by decide, by decide, by decide, by decide⟩⟩

theorem isqrtGo_le (n : Nat) : ∀ fuel x y, x ≤ n → y ≤ n → isqrtGo n fuel x y ≤ n := by
  intro fuel
  induction fuel with
  | zero => intro x y hx _; exact hx
  | succ f ih =>
    intro x y hx hy
    simp only [isqrtGo]
    split
    · exact hx
    · apply ih y _ hy
      rw [Nat.shiftRight_eq_div_pow, Nat.pow_one]
      have h1 : n / y ≤ n := Nat.div_le_self n y
      omega

theorem isqrt_le_self (n : Nat) : isqrt n ≤ n := by
  by_cases h0 : n = 0
  · simp [isqrt, h0]
  · by_cases h3 : n ≤ 3
    · simp only [isqrt, if_neg h0, if_pos h3]
      omega
    · simp only [isqrt, if_neg h0, if_neg h3]
      apply isqrtGo_le
      · rw [Nat.shiftRight_eq_div_pow, Nat.pow_one]
        omega
      · simp only [Nat.shiftRight_eq_div_pow, Nat.pow_one]
        have h1 : n / (n / 2) ≤ n := Nat.div_le_self n (n / 2)
        omega

theorem kellyRefineShape_le (v bs : Nat) :
    satSub64 (isqrt (satMul64 (satMul64 v bs) 1000000000 / C_SCALED)) bs ≤ U64_MAX :=
  le_trans (Nat.sub_le _ _)
    (le_trans (isqrt_le_self _) (le_trans (Nat.div_le_self _ _) (satMul64_le_max _ _)))

theorem kellyLoop_le (lp ov bs : Nat) :
    ∀ fuel y, y ≤ U64_MAX → kellyLoop lp ov bs fuel y ≤ U64_MAX := by
  intro fuel
  induction fuel with
  | zero => intro y hy; exact hy
  | succ f ih =>
    intro y hy
    simp only [kellyLoop]
    split
    · exact hy
    · split
      · exact Nat.zero_le _
      · split <;> split
        · exact kellyRefineShape_le _ _
        · exact ih _ (kellyRefineShape_le _ _)
        · exact kellyRefineShape_le _ _
        · exact ih _ (kellyRefineShape_le _ _)

theorem calculate_kelly_optimal_le (bs tp ov : Nat) :
    calculate_kelly_optimal bs tp ov ≤ U64_MAX := by
  simp only [calculate_kelly_optimal]
  split
  · exact Nat.zero_le _
  · split
    · exact Nat.zero_le _
    · exact kellyLoop_le _ _ _ 5 _ (kellyRefineShape_le _ _)

theorem foldl_satAdd64 : ∀ (l : List Nat) (a : Nat), a ≤ U64_MAX →
    l.foldl satAdd64 a = min (a + l.sum) U64_MAX := by
  intro l
  induction l with
  | nil =>
    intro a ha
    simp only [List.foldl_nil, List.sum_nil, Nat.add_zero]
    omega
  | cons x t ih =>
    intro a ha
    simp only [List.foldl_cons, List.sum_cons]
    rw [show satAdd64 a x = min (a + x) U64_MAX from rfl, ih _ (min_le_right _ _)]
    omega

theorem add_div_le (a b d : Nat) : a / d + b / d ≤ (a + b) / d := by
  rcases Nat.eq_zero_or_pos d with hd | hd
  · subst hd
    simp
  · rw [Nat.le_div_iff_mul_le hd, Nat.add_mul]
    exact Nat.add_le_add (Nat.div_mul_le_self a d) (Nat.div_mul_le_self b d)

theorem sum_map_div_le (l : List Nat) (d : Nat) :
    (l.map (fun o => o / d)).sum ≤ l.sum / d := by
  induction l with
  | nil => simp
  | cons x t ih =>
    simp only [List.map_cons, List.sum_cons]
    exact le_trans (Nat.add_le_add_left ih _) (add_div_le x t.sum d)

theorem sum_map_mul_const (l : List Nat) (c : Nat) :
    (l.map (fun o => o * c)).sum = l.sum * c := by
  induction l with
  | nil => simp
  | cons x t ih => simp [ih, Nat.add_mul]

theorem selectLoop_map_fst_sublist (tp ov sc : Nat) (th : Int) :
    ∀ l, List.Sublist ((selectLoop tp ov sc th l).map (fun t => t.1))
      (l.map (fun c => c.1.1)) := by
  intro l
  induction l with
  | nil => simp [selectLoop]
  | cons c rest ih =>
    obtain ⟨⟨idx, bsz⟩, opt⟩ := c
    simp only [selectLoop, List.map_cons]
    split
    · exact ih.cons _
    · split
      · exact ih.cons _
      · split
        · simpa using ih.cons₂ idx
        · simp

theorem selectLoop_length_le (tp ov sc : Nat) (th : Int) (l : List ((Nat × Nat) × Nat)) :
    (selectLoop tp ov sc th l).length ≤ l.length := by
  have h := (selectLoop_map_fst_sublist tp ov sc th l).length_le
  simpa using h

theorem selectLoop_sum_le (tp ov sc : Nat) (th : Int) :
    ∀ l, ((selectLoop tp ov sc th l).map (fun t => t.2.1)).sum ≤
      (l.map (fun c => wrap64 (c.2 * sc) / 1000000000)).sum := by
  intro l
  induction l with
  | nil => simp [selectLoop]
  | cons c rest ih =>
    obtain ⟨⟨idx, bsz⟩, opt⟩ := c
    simp only [selectLoop, List.map_cons, List.sum_cons]
    split
    · exact le_trans ih (Nat.le_add_left _ _)
    · split
      · exact le_trans ih (Nat.le_add_left _ _)
      · split
        · simp only [List.map_cons, List.sum_cons]
          exact Nat.add_le_add_left ih _
        · simp

theorem blocksInit_length (round : OreRound) : (blocksInit round).length = 25 := by
  simp [blocksInit]

theorem blocksInit_map_fst (round : OreRound) :
    (blocksInit round).map (fun c => c.1) = List.range 25 := by
  simp [blocksInit, List.map_map]
  rfl

theorem sortBlocks_length (round : OreRound) :
    (sortBlocks (blocksInit round)).length = 25 := by
  show (bubbleGo 24 (blocksInit round)).length = 25
  rw [(bubbleGo_perm 24 (blocksInit round)).length_eq, blocksInit_length]

theorem sortBlocks_map_fst_nodup (round : OreRound) :
    ((sortBlocks (blocksInit round)).map (fun c => c.1)).Nodup := by
  have hperm : List.Perm ((sortBlocks (blocksInit round)).map (fun c => c.1))
      ((blocksInit round).map (fun c => c.1)) := (bubbleGo_perm 24 _).map _
  rw [hperm.nodup_iff, blocksInit_map_fst]
  exact List.nodup_range 25

theorem scaled_sum_le_budget (opts : List Nat) (B : Nat) (hlen : opts.length ≤ 5) :
    (opts.map (fun o =>
      wrap64 (o * scaleFactorOf B (opts.foldl satAdd64 0)) / 1000000000)).sum ≤ B := by
  have hMOD : U64_MOD = 18446744073709551616 := rfl
  have hMAX : U64_MAX = 18446744073709551615 := rfl
  have hT : opts.foldl satAdd64 0 = min opts.sum U64_MAX := by
    rw [foldl_satAdd64 opts 0 (Nat.zero_le _)]
    simp
  by_cases hcond : B < opts.foldl satAdd64 0 ∧ 0 < opts.foldl satAdd64 0
  · rw [show scaleFactorOf B (opts.foldl satAdd64 0) =
        wrap64 (B * 1000000000) / opts.foldl satAdd64 0 from by
      unfold scaleFactorOf
      rw [if_pos hcond]]
    by_cases hsat : opts.sum ≤ U64_MAX
    · have hTS : opts.foldl satAdd64 0 = opts.sum := by omega
      have hMle : wrap64 (B * 1000000000) ≤ B * 1000000000 := wrap64_le _
      have key : ∀ o ∈ opts,
          wrap64 (o * (wrap64 (B * 1000000000) / opts.foldl satAdd64 0)) / 1000000000 =
          o * (wrap64 (B * 1000000000) / opts.foldl satAdd64 0) / 1000000000 := by
        intro o ho
        have h1 : o ≤ opts.sum := List.single_le_sum (fun x _ => Nat.zero_le x) o ho
        have h2 : o * (wrap64 (B * 1000000000) / opts.foldl satAdd64 0) ≤
            wrap64 (B * 1000000000) := by
          calc o * (wrap64 (B * 1000000000) / opts.foldl satAdd64 0)
              ≤ opts.sum * (wrap64 (B * 1000000000) / opts.foldl satAdd64 0) :=
                Nat.mul_le_mul_right _ h1
          _ = wrap64 (B * 1000000000) / opts.sum * opts.sum := by
                rw [hTS, Nat.mul_comm]
          _ ≤ wrap64 (B * 1000000000) := Nat.div_mul_le_self _ _
        exact congrArg (fun z => z / 1000000000) (wrap64_eq (lt_of_le_of_lt h2 (wrap64_lt _)))
      rw [List.map_congr_left key]
      have h3 : (opts.map (fun o =>
          o * (wrap64 (B * 1000000000) / opts.foldl satAdd64 0) / 1000000000)).sum ≤
          (opts.map (fun o =>
            o * (wrap64 (B * 1000000000) / opts.foldl satAdd64 0))).sum / 1000000000 := by
        have h := sum_map_div_le
          (opts.map (fun o => o * (wrap64 (B * 1000000000) / opts.foldl satAdd64 0)))
          1000000000
        rw [List.map_map] at h
        exact h
      have h4 : (opts.map (fun o =>
          o * (wrap64 (B * 1000000000) / opts.foldl satAdd64 0))).sum =
          opts.sum * (wrap64 (B * 1000000000) / opts.foldl satAdd64 0) :=
        sum_map_mul_const _ _
      have h5 : opts.sum * (wrap64 (B * 1000000000) / opts.foldl satAdd64 0) ≤
          wrap64 (B * 1000000000) := by
        rw [hTS, Nat.mul_comm]
        exact Nat.div_mul_le_self _ _
      calc (opts.map (fun o =>
          o * (wrap64 (B * 1000000000) / opts.foldl satAdd64 0) / 1000000000)).sum
          ≤ (opts.map (fun o =>
              o * (wrap64 (B * 1000000000) / opts.foldl satAdd64 0))).sum / 1000000000 := h3
      _ = opts.sum * (wrap64 (B * 1000000000) / opts.foldl satAdd64 0) / 1000000000 := by
            rw [h4]
      _ ≤ wrap64 (B * 1000000000) / 1000000000 := Nat.div_le_div_right h5
      _ ≤ B * 1000000000 / 1000000000 := Nat.div_le_div_right hMle
      _ = B := Nat.mul_div_cancel B (by norm_num)
    · have hTMAX : opts.foldl satAdd64 0 = U64_MAX := by omega
      have hdvd : (512 : Nat) ∣ U64_MOD := by norm_num [U64_MOD]
      have h2 : wrap64 (B * 1000000000) % 512 = 0 := by
        show (B * 1000000000) % U64_MOD % 512 = 0
        rw [Nat.mod_mod_of_dvd _ hdvd]
        omega
      have hM_lt : wrap64 (B * 1000000000) < U64_MAX := by
        have h1 : wrap64 (B * 1000000000) < U64_MOD := wrap64_lt _
        omega
      have hscale0 : wrap64 (B * 1000000000) / opts.foldl satAdd64 0 = 0 := by
        rw [hTMAX]
        exact Nat.div_eq_of_lt hM_lt
      simp only [hscale0, Nat.mul_zero]
      simp [wrap64]
  · rw [show scaleFactorOf B (opts.foldl satAdd64 0) = 1000000000 from by
      unfold scaleFactorOf
      rw [if_neg hcond]]
    have hterm : ∀ o ∈ opts, wrap64 (o * 1000000000) / 1000000000 ≤ o := by
      intro o _
      calc wrap64 (o * 1000000000) / 1000000000 ≤ o * 1000000000 / 1000000000 :=
            Nat.div_le_div_right (wrap64_le _)
      _ = o := Nat.mul_div_cancel o (by norm_num)
    by_cases hsat : opts.sum ≤ U64_MAX
    · have hTS : opts.foldl satAdd64 0 = opts.sum := by omega
      have hsum_le : (opts.map (fun o => wrap64 (o * 1000000000) / 1000000000)).sum ≤
          opts.sum := by
        have h := List.sum_le_sum hterm
        simpa using h
      omega
    · have hTMAX : opts.foldl satAdd64 0 = U64_MAX := by omega
      have hBig : U64_MAX ≤ B := by omega
      have hbound := List.sum_le_card_nsmul
        (opts.map (fun o => wrap64 (o * 1000000000) / 1000000000)) 18446744073 ?_
      · rw [List.length_map, smul_eq_mul] at hbound
        have h9 : opts.length * 18446744073 ≤ 5 * 18446744073 :=
          Nat.mul_le_mul_right _ hlen
        omega
      · intro x hx
        rw [List.mem_map] at hx
        obtain ⟨o, ho, rfl⟩ := hx
        have h1 : wrap64 (o * 1000000000) < U64_MOD := wrap64_lt _
        omega

/-- Claim C1: for every valid request (1 to 5 target blocks, positive price)
and every round state, the returned plan has at most max_blocks entries (so
at most 5); its block indices are, in order, a sublist of the indices of the
max_blocks smallest-committed blocks as ranked ascending by the sort (hence
listed in ascending committed-size order); they are pairwise distinct; and
the selected amounts sum to at most the total budget. -/
theorem c1_plan_invariants (round : OreRound) (total_budget max_blocks ore_price : Nat)
    (thresh : Int) (h1 : 1 ≤ max_blocks) (h2 : max_blocks ≤ 5) (h3 : 0 < ore_price)
    (h4 : round.deployed.length = 25) :
    (calculate_optimal_deployments round total_budget max_blocks ore_price thresh).length ≤
      max_blocks ∧
    List.Sublist
      ((calculate_optimal_deployments round total_budget max_blocks ore_price thresh).map
        (fun t => t.1))
      ((candidatesOf round max_blocks).map (fun c => c.1)) ∧
    ((calculate_optimal_deployments round total_budget max_blocks ore_price thresh).map
      (fun t => t.1)).Nodup ∧
    ((calculate_optimal_deployments round total_budget max_blocks ore_price thresh).map
      (fun t => t.2.1)).sum ≤ total_budget := by
  have hwl : (withOptimalOf round max_blocks (oreValueOf round.motherlode ore_price)).length ≤
      max_blocks := by
    unfold withOptimalOf candidatesOf
    rw [List.length_map, List.length_take, sortBlocks_length]
    exact min_le_left _ _
  have hmapeq : (withOptimalOf round max_blocks (oreValueOf round.motherlode ore_price)).map
      (fun c => c.1.1) = (candidatesOf round max_blocks).map (fun c => c.1) := by
    unfold withOptimalOf
    rw [List.map_map]
    rfl
  have hsub : List.Sublist
      ((calculate_optimal_deployments round total_budget max_blocks ore_price thresh).map
        (fun t => t.1))
      ((candidatesOf round max_blocks).map (fun c => c.1)) := by
    rw [← hmapeq]
    exact selectLoop_map_fst_sublist _ _ _ _ _
  have hcandnodup : ((candidatesOf round max_blocks).map (fun c => c.1)).Nodup := by
    unfold candidatesOf
    rw [List.map_take]
    exact (sortBlocks_map_fst_nodup round).sublist (List.take_sublist _ _)
  refine ⟨?_, hsub, hcandnodup.sublist hsub, ?_⟩
  · exact le_trans (selectLoop_length_le _ _ _ _ _) hwl
  · have hstep := selectLoop_sum_le round.total_deployed
      (oreValueOf round.motherlode ore_price)
      (scaleFactorOf total_budget
        (totalOptimalOf round max_blocks (oreValueOf round.motherlode ore_price)))
      thresh (withOptimalOf round max_blocks (oreValueOf round.motherlode ore_price))
    have hkey := scaled_sum_le_budget
      ((withOptimalOf round max_blocks (oreValueOf round.motherlode ore_price)).map
        (fun c => c.2))
      total_budget (by rw [List.length_map]; omega)
    rw [List.map_map] at hkey
    exact le_trans hstep hkey

/-- Witness for C1 on a concrete round and a valid request. -/
theorem c1_plan_invariants_witness :
    (calculate_optimal_deployments smallRound 1000000000 2 10 0).length ≤ 2 ∧
    List.Sublist
      ((calculate_optimal_deployments smallRound 1000000000 2 10 0).map (fun t => t.1))
      ((candidatesOf smallRound 2).map (fun c => c.1)) ∧
    ((calculate_optimal_deployments smallRound 1000000000 2 10 0).map (fun t => t.1)).Nodup ∧
    ((calculate_optimal_deployments smallRound 1000000000 2 10 0).map
      (fun t => t.2.1)).sum ≤ 1000000000 :=
  c1_plan_invariants smallRound 1000000000 2 10 0 (by norm_num) (by norm_num) (by norm_num)
    (by decide)

theorem selectLoop_stop_take (tp ov sc : Nat) (th : Int) :
    ∀ (l : List ((Nat × Nat) × Nat)) (i : Nat) (c : (Nat × Nat) × Nat),
      l[i]? = some c → c.2 ≠ 0 → wrap64 (c.2 * sc) / 1000000000 ≠ 0 →
      calculate_ev c.1.2 (wrap64 (c.2 * sc) / 1000000000) tp ov <
        Int.tdiv (((wrap64 (c.2 * sc) / 1000000000 : Nat) : Int) * th) 10000 →
      selectLoop tp ov sc th l = selectLoop tp ov sc th (l.take (i + 1)) := by
  intro l
  induction l with
  | nil =>
    intro i c hget
    simp at hget
  | cons hd rest ih =>
    intro i c hget hopt hscz hfail
    match i with
    | 0 =>
      rw [List.getElem?_cons_zero] at hget
      have hhd : hd = c := by simpa using hget
      subst hhd
      obtain ⟨⟨idx, bsz⟩, opt⟩ := hd
      simp only [List.take_succ_cons, List.take_zero]
      simp only [selectLoop, if_neg hopt, if_neg hscz, if_neg (not_le.mpr hfail)]
    | i + 1 =>
      rw [List.getElem?_cons_succ] at hget
      obtain ⟨⟨idx, bsz⟩, opt⟩ := hd
      have hrec := ih i c hget hopt hscz hfail
      simp only [List.take_succ_cons]
      by_cases hz : opt = 0
      · simp only [selectLoop, if_pos hz]
        exact hrec
      · by_cases hsz : wrap64 (opt * sc) / 1000000000 = 0
        · simp only [selectLoop, if_neg hz, if_pos hsz]
          exact hrec
        · by_cases hev : Int.tdiv (((wrap64 (opt * sc) / 1000000000 : Nat) : Int) * th) 10000 ≤
              calculate_ev bsz (wrap64 (opt * sc) / 1000000000) tp ov
          · simp only [selectLoop, if_neg hz, if_neg hsz, if_pos hev]
            rw [hrec]
          · simp only [selectLoop, if_neg hz, if_neg hsz, if_neg hev]

/-- Claim C5: in the filtering loop, when the candidate at rank i is tested
(its optimal and scaled amounts are nonzero) and fails the EV threshold
test, the computed plan is exactly the plan computed from the first i plus 1
candidates alone — no candidate of any higher rank appears in it; the plan
indices are a sublist of the first i plus 1 candidate indices. -/
theorem c5_early_exit (round : OreRound) (total_budget max_blocks ore_price : Nat)
    (thresh : Int) (tp ov sc : Nat) (cands : List ((Nat × Nat) × Nat)) (i : Nat)
    (c : (Nat × Nat) × Nat)
    (htp : tp = round.total_deployed)
    (hov : ov = oreValueOf round.motherlode ore_price)
    (hcands : cands = withOptimalOf round max_blocks ov)
    (hsc : sc = scaleFactorOf total_budget (totalOptimalOf round max_blocks ov))
    (hget : cands[i]? = some c) (hopt : c.2 ≠ 0)
    (hscz : wrap64 (c.2 * sc) / 1000000000 ≠ 0)
    (hfail : calculate_ev c.1.2 (wrap64 (c.2 * sc) / 1000000000) tp ov <
      Int.tdiv (((wrap64 (c.2 * sc) / 1000000000 : Nat) : Int) * thresh) 10000) :
    calculate_optimal_deployments round total_budget max_blocks ore_price thresh =
      selectLoop tp ov sc thresh (cands.take (i + 1)) ∧
    List.Sublist
      ((calculate_optimal_deployments round total_budget max_blocks ore_price thresh).map
        (fun t => t.1))
      ((cands.take (i + 1)).map (fun t => t.1.1)) := by
  subst htp hov hcands hsc
  have heq : calculate_optimal_deployments round total_budget max_blocks ore_price thresh =
      selectLoop round.total_deployed (oreValueOf round.motherlode ore_price)
        (scaleFactorOf total_budget
          (totalOptimalOf round max_blocks (oreValueOf round.motherlode ore_price)))
        thresh (withOptimalOf round max_blocks (oreValueOf round.motherlode ore_price)) := rfl
  have hstop := selectLoop_stop_take round.total_deployed
    (oreValueOf round.motherlode ore_price)
    (scaleFactorOf total_budget
      (totalOptimalOf round max_blocks (oreValueOf round.motherlode ore_price)))
    thresh (withOptimalOf round max_blocks (oreValueOf round.motherlode ore_price))
    i c hget hopt hscz hfail
  constructor
  · rw [heq, hstop]
  · rw [heq, hstop]
    exact selectLoop_map_fst_sublist _ _ _ _ _

/-- Witness for C5 on a concrete round where the rank 0 candidate is tested
against a 200 percent EV threshold and fails, stopping the loop. -/
theorem c5_early_exit_witness :
    calculate_optimal_deployments smallRound 1000000000 2 10 20000 =
      selectLoop 325000 9 1000000000 20000 ((withOptimalOf smallRound 2 9).take 1) ∧
    List.Sublist
      ((calculate_optimal_deployments smallRound 1000000000 2 10 20000).map (fun t => t.1))
      (((withOptimalOf smallRound 2 9).take 1).map (fun t => t.1.1)) :=
  c5_early_exit smallRound 1000000000 2 10 20000 325000 9 1000000000
    (withOptimalOf smallRound 2 9) 0 ((0, 1000), 72037) rfl (by decide) (by decide)
    (by decide) (by decide) (by decide) (by decide) (by decide)

theorem dist_if (a b : Nat) : (if a < b then b - a else a - b) = Nat.dist a b := by
  rcases Nat.lt_or_ge a b with h | h
  · rw [if_pos h]
    simp [Nat.dist]
    omega
  · rw [if_neg (not_lt_of_le h)]
    simp [Nat.dist]
    omega

theorem kellySeq_shift (lp ov bs y : Nat) :
    ∀ k, kellySeq lp ov bs y (k + 1) = kellySeq lp ov bs (kellyStep1 lp ov bs y) k := by
  intro k
  induction k with
  | zero => rfl
  | succ k ih =>
    show kellyStep1 lp ov bs (kellySeq lp ov bs y (k + 1)) = _
    rw [ih]
    rfl

theorem kellyRefine_of_newv_zero {lp ov bs y : Nat}
    (h : satAdd64 (wrap64 (satSub64 lp y * 9000) / 10000) ov = 0) :
    kellyRefine lp ov bs y = 0 := by
  simp only [kellyRefine]
  rw [h]
  simp [satMul64, satSub64, isqrt]

theorem kellyLoop_eq_seq (lp ov bs : Nat) :
    ∀ fuel y, ∃ k, k ≤ fuel ∧
      kellyLoop lp ov bs fuel y = kellySeq lp ov bs y k ∧
      (∀ j, j < k → kellySeq lp ov bs y j ≠ 0) ∧
      (∀ j, j + 1 < k →
        100 ≤ Nat.dist (kellySeq lp ov bs y j) (kellySeq lp ov bs y (j + 1))) ∧
      (k < fuel → kellySeq lp ov bs y k = 0 ∨
        (0 < k ∧ Nat.dist (kellySeq lp ov bs y (k - 1)) (kellySeq lp ov bs y k) < 100)) := by
  intro fuel
  induction fuel with
  | zero =>
    intro y
    refine ⟨0, le_refl 0, rfl, ?_, ?_, ?_⟩
    · intro j hj
      exact absurd hj (Nat.not_lt_zero j)
    · intro j hj
      exact absurd hj (Nat.not_lt_zero _)
    · intro h
      exact absurd h (lt_irrefl 0)
  | succ fuel ih =>
    intro y
    by_cases hy : y = 0
    · refine ⟨0, Nat.zero_le _, ?_, ?_, ?_, ?_⟩
      · simp only [kellyLoop, if_pos hy]
        rfl
      · intro j hj
        exact absurd hj (Nat.not_lt_zero j)
      · intro j hj
        exact absurd hj (Nat.not_lt_zero _)
      · intro _
        exact Or.inl hy
    · have hshift : ∀ j, kellySeq lp ov bs y (j + 1) =
          kellySeq lp ov bs (kellyRefine lp ov bs y) j := by
        intro j
        rw [kellySeq_shift]
        simp only [kellyStep1, if_neg hy]
      have hseq1 : kellySeq lp ov bs y 1 = kellyRefine lp ov bs y := by
        rw [hshift 0]
        rfl
      by_cases hv : satAdd64 (wrap64 (satSub64 lp y * 9000) / 10000) ov = 0
      · refine ⟨1, by omega, ?_, ?_, ?_, ?_⟩
        · simp only [kellyLoop, if_neg hy, if_pos hv]
          rw [hseq1, kellyRefine_of_newv_zero hv]
        · intro j hj
          have hj0 : j = 0 := by omega
          subst hj0
          exact hy
        · intro j hj
          exact absurd hj (by omega)
        · intro _
          exact Or.inl (by rw [hseq1, kellyRefine_of_newv_zero hv])
      · have hfold : satSub64 (isqrt (satMul64 (satMul64
            (satAdd64 (wrap64 (satSub64 lp y * 9000) / 10000) ov) bs) 1000000000 /
            C_SCALED)) bs = kellyRefine lp ov bs y := rfl
        have hkl : kellyLoop lp ov bs (fuel + 1) y =
            if (if y < kellyRefine lp ov bs y then kellyRefine lp ov bs y - y
                else y - kellyRefine lp ov bs y) < 100 then
              kellyRefine lp ov bs y
            else kellyLoop lp ov bs fuel (kellyRefine lp ov bs y) := by
          simp only [kellyLoop, if_neg hy, if_neg hv]
          rw [hfold]
        by_cases hdiff : (if y < kellyRefine lp ov bs y then kellyRefine lp ov bs y - y
            else y - kellyRefine lp ov bs y) < 100
        · refine ⟨1, by omega, ?_, ?_, ?_, ?_⟩
          · rw [hkl, if_pos hdiff, hseq1]
          · intro j hj
            have hj0 : j = 0 := by omega
            subst hj0
            exact hy
          · intro j hj
            exact absurd hj (by omega)
          · intro _
            refine Or.inr ⟨by omega, ?_⟩
            show Nat.dist (kellySeq lp ov bs y 0) (kellySeq lp ov bs y 1) < 100
            rw [hseq1]
            show Nat.dist y (kellyRefine lp ov bs y) < 100
            rw [← dist_if]
            exact hdiff
        · obtain ⟨k, hk, heq, hnz, hds, hstop⟩ := ih (kellyRefine lp ov bs y)
          refine ⟨k + 1, by omega, ?_, ?_, ?_, ?_⟩
          · rw [hkl, if_neg hdiff, heq, hshift k]
          · intro j hj
            cases j with
            | zero => exact hy
            | succ j2 =>
              rw [hshift j2]
              exact hnz j2 (by omega)
          · intro j hj
            cases j with
            | zero =>
              show 100 ≤ Nat.dist (kellySeq lp ov bs y 0) (kellySeq lp ov bs y 1)
              rw [hseq1]
              show 100 ≤ Nat.dist y (kellyRefine lp ov bs y)
              rw [← dist_if]
              exact not_lt.mp hdiff
            | succ j2 =>
              rw [hshift j2, hshift (j2 + 1)]
              exact hds j2 (by omega)
          · intro hlt
            rcases hstop (by omega) with h0 | ⟨hpos, hd⟩
            · exact Or.inl (by rw [hshift k]; exact h0)
            · refine Or.inr ⟨by omega, ?_⟩
              obtain ⟨k2, rfl⟩ : ∃ k2, k = k2 + 1 := ⟨k - 1, by omega⟩
              have e1 : k2 + 1 + 1 - 1 = k2 + 1 := by omega
              rw [e1, hshift k2, hshift (k2 + 1)]
              have e2 : k2 + 1 - 1 = k2 := by omega
              rw [e2] at hd
              exact hd

/-- Claim C6: for a nondegenerate pool, calculate_kelly_optimal returns an
element of the abstract iterate sequence (closed-form initial estimate
kellyInit refined by kellyRefine, which recomputes the pot with the losing
pool reduced by the previous iterate): there is a k of at most 5
refinements such that the result is the k-th iterate, no earlier iterate
triggered a stop (all are nonzero and all earlier successive changes are at
least 100), and an early stop (k below 5) is justified by a zero iterate or
by a change below 100 units. -/
theorem c6_kelly_iteration (block_size total_pool ore_value : Nat)
    (h1 : 0 < block_size) (h2 : block_size < total_pool) :
    ∃ k, k ≤ 5 ∧
      calculate_kelly_optimal block_size total_pool ore_value =
        kellySeq (satSub64 total_pool block_size) ore_value block_size
          (kellyInit block_size total_pool ore_value) k ∧
      (∀ j, j < k → kellySeq (satSub64 total_pool block_size) ore_value block_size
        (kellyInit block_size total_pool ore_value) j ≠ 0) ∧
      (∀ j, j + 1 < k →
        100 ≤ Nat.dist
          (kellySeq (satSub64 total_pool block_size) ore_value block_size
            (kellyInit block_size total_pool ore_value) j)
          (kellySeq (satSub64 total_pool block_size) ore_value block_size
            (kellyInit block_size total_pool ore_value) (j + 1))) ∧
      (k < 5 →
        kellySeq (satSub64 total_pool block_size) ore_value block_size
          (kellyInit block_size total_pool ore_value) k = 0 ∨
        (0 < k ∧ Nat.dist
          (kellySeq (satSub64 total_pool block_size) ore_value block_size
            (kellyInit block_size total_pool ore_value) (k - 1))
          (kellySeq (satSub64 total_pool block_size) ore_value block_size
            (kellyInit block_size total_pool ore_value) k) < 100)) := by
  have hne : ¬(block_size = 0 ∨ total_pool ≤ block_size) := by omega
  by_cases hv : satAdd64 (wrap64 (satSub64 total_pool block_size * 9000) / 10000) ore_value = 0
  · have hinit : kellyInit block_size total_pool ore_value = 0 := by
      simp only [kellyInit]
      rw [hv]
      simp [satMul64, satSub64, isqrt]
    have hcalc : calculate_kelly_optimal block_size total_pool ore_value = 0 := by
      simp only [calculate_kelly_optimal, if_neg hne, if_pos hv]
    refine ⟨0, by omega, ?_, ?_, ?_, ?_⟩
    · rw [hcalc]
      show (0 : Nat) = kellyInit block_size total_pool ore_value
      rw [hinit]
    · intro j hj
      exact absurd hj (Nat.not_lt_zero j)
    · intro j hj
      exact absurd hj (Nat.not_lt_zero _)
    · intro _
      exact Or.inl hinit
  · have hcalc : calculate_kelly_optimal block_size total_pool ore_value =
        kellyLoop (satSub64 total_pool block_size) ore_value block_size 5
          (kellyInit block_size total_pool ore_value) := by
      simp only [calculate_kelly_optimal, if_neg hne, if_neg hv]
      rfl
    rw [hcalc]
    exact kellyLoop_eq_seq (satSub64 total_pool block_size) ore_value block_size 5
      (kellyInit block_size total_pool ore_value)

/-- Witness for C6 at a concrete nondegenerate pool. -/
theorem c6_kelly_iteration_witness :
    ∃ k, k ≤ 5 ∧
      calculate_kelly_optimal 1000 325000 9 =
        kellySeq (satSub64 325000 1000) 9 1000 (kellyInit 1000 325000 9) k ∧
      (∀ j, j < k →
        kellySeq (satSub64 325000 1000) 9 1000 (kellyInit 1000 325000 9) j ≠ 0) ∧
      (∀ j, j + 1 < k →
        100 ≤ Nat.dist (kellySeq (satSub64 325000 1000) 9 1000 (kellyInit 1000 325000 9) j)
          (kellySeq (satSub64 325000 1000) 9 1000 (kellyInit 1000 325000 9) (j + 1))) ∧
      (k < 5 →
        kellySeq (satSub64 325000 1000) 9 1000 (kellyInit 1000 325000 9) k = 0 ∨
        (0 < k ∧
          Nat.dist (kellySeq (satSub64 325000 1000) 9 1000 (kellyInit 1000 325000 9) (k - 1))
            (kellySeq (satSub64 325000 1000) 9 1000 (kellyInit 1000 325000 9) k) < 100)) :=
  c6_kelly_iteration 1000 325000 9 (by norm_num) (by norm_num)
